import Mathlib

/-!
Verification development for the Telegram Web App storefront backend.

The development shallowly embeds the three core subsystems of the backend:

* `app/utils/telegram_auth.py` — `validate_init_data`, the signed-session
  verifier (modelled over byte strings `Bytes := List Nat`; the two stdlib
  black boxes `hmac.new(..., sha256)` and `json.loads` are passed in as
  opaque function parameters, since they are Python-library code, not code
  of this repository; everything the repository itself does — parsing,
  decoding, sorting, joining, comparing, freshness — is modelled exactly).
* `app/services/woocommerce.py` — `find_or_create_customer_by_telegram_data`,
  the identity resolver, written against an explicit state-passing directory
  client interface (the remote WooCommerce customer store is an external
  collaborator; it is modelled from the spec at its interface boundary).
* `app/api/v1/endpoints/cart.py` — the cart reconciliation loop of
  `get_user_cart`, together with the backend stock filter that
  `WooCommerceService.get_products` applies to the catalog response.
-/

namespace TgBackend

/-- Byte strings: the model works on UTF-8 byte sequences, mirroring the
`str`s of the Python source (for UTF-8 data, byte-wise operations agree
with Python's code-point-wise ones). -/
abbrev Bytes := List Nat

/-- Bytes of a (ASCII/UTF-8) Lean string literal, for stating concrete facts. -/
def strToBytes (s : String) : Bytes := s.data.map Char.toNat

/-- ASCII whitespace recognised by Python's `int()` / `str.strip()`. -/
def isSpaceByte (b : Nat) : Bool :=
  b = 32 || b = 9 || b = 10 || b = 13 || b = 12 || b = 11

/-- ASCII decimal digit. -/
def isDigitByte (b : Nat) : Bool := 48 ≤ b && b ≤ 57

/-- ASCII hex digit (both cases), as accepted by `urllib.parse.unquote`. -/
def isHexDigitByte (b : Nat) : Bool :=
  (48 ≤ b && b ≤ 57) || (65 ≤ b && b ≤ 70) || (97 ≤ b && b ≤ 102)

/-- Value of one ASCII hex digit. -/
def hexDigitVal (b : Nat) : Nat :=
  if b ≤ 57 then b - 48 else if b ≤ 70 then b - 55 else b - 87

/-- Value of a two-hex-digit pair. -/
def hexPairVal (a b : Nat) : Nat := hexDigitVal a * 16 + hexDigitVal b

/-- Uppercase ASCII hex digit for a value below 16. -/
def hexDigitChar (n : Nat) : Nat := if n < 10 then 48 + n else 55 + n

/-- `urllib.parse.unquote` at the byte level, with explicit fuel (each step
consumes at least one input byte, so `length` fuel is always enough; the
fuel only makes the recursion structural): a `%` followed by two hex digits
decodes to that byte; any other `%` is kept literally. -/
def unquoteAux : Nat → Bytes → Bytes
  | _, [] => []
  | 0, l => l
  | fuel + 1, b :: rest =>
    if b = 37 then
      match rest with
      | a :: c :: rest2 =>
        if isHexDigitByte a && isHexDigitByte c then
          hexPairVal a c :: unquoteAux fuel rest2
        else 37 :: unquoteAux fuel rest
      | _ => 37 :: unquoteAux fuel rest
    else b :: unquoteAux fuel rest

/-- `urllib.parse.unquote` at the byte level. -/
def unquoteBytes (l : Bytes) : Bytes := unquoteAux l.length l

/-- The `.replace` of `+` by a space that `parse_qsl` applies before unquoting. -/
def replacePlus (l : Bytes) : Bytes := l.map (fun b => if b = 43 then 32 else b)

/-- One query-string component decode, as `parse_qsl` performs it on both the
name and the value of each pair. -/
def decodeComp (l : Bytes) : Bytes := unquoteBytes (replacePlus l)

/-- `str.split(sep)` on one separator byte (always returns a nonempty list). -/
def splitSep (sep : Nat) : Bytes → List Bytes
  | [] => [[]]
  | b :: rest =>
    match splitSep sep rest with
    | [] => [[]]
    | h :: t => if b = sep then [] :: h :: t else (b :: h) :: t

/-- `s.split(61, 1)`: split at the first `=`; `none` when there is no `=`. -/
def splitEq1 : Bytes → Option (Bytes × Bytes)
  | [] => none
  | b :: rest =>
    if b = 61 then some ([], rest)
    else
      match splitEq1 rest with
      | none => none
      | some nv => some (b :: nv.1, nv.2)

/-- One `&`-separated field of a query string, as `parse_qsl` handles it:
an empty field is skipped; a field is split at its first `=` (a field
without `=` becomes a pair with empty value, `keep_blank_values=True`);
both name and value are URL-decoded. -/
def qslPair (nv : Bytes) : Option (Bytes × Bytes) :=
  if nv.isEmpty then none
  else
    match splitEq1 nv with
    | some p => some (decodeComp p.1, decodeComp p.2)
    | none => some (decodeComp nv, [])

/-- `urllib.parse.parse_qsl(s, keep_blank_values=True)`: split on `&` and
process each field. -/
def parse_qsl (s : Bytes) : List (Bytes × Bytes) :=
  (splitSep 38 s).filterMap qslPair

/-- Last value stored under a key while scanning pairs left to right — the
semantics of the `for key, value in original_pairs:` loop of
`validate_init_data` (a later occurrence overwrites an earlier one). -/
def lastVal (ps : List (Bytes × Bytes)) (k : Bytes) : Option Bytes :=
  match ps with
  | [] => none
  | kv :: rest =>
    match lastVal rest k with
    | some v => some v
    | none => if kv.1 = k then some kv.2 else none

/-- Byte-wise lexicographic `≤`, the order Python's `sorted` uses on the
(UTF-8) key strings. -/
def bytesLe : Bytes → Bytes → Bool
  | [], _ => true
  | _ :: _, [] => false
  | a :: as, b :: bs => if a < b then true else if b < a then false else bytesLe as bs

/-- Comparison of pairs by key only: `sorted(..., key=lambda item: item[0])`. -/
def pairLe (a b : Bytes × Bytes) : Bool := bytesLe a.1 b.1

/-- Insertion into a sorted list, placing the new element before the first
element it is `le`-below-or-equal-to — with a total `le` this yields a
stable sort, as Python's `sorted` is. -/
def insertPair {α : Type} (le : α → α → Bool) (x : α) : List α → List α
  | [] => [x]
  | y :: ys => if le x y then x :: y :: ys else y :: insertPair le x ys

/-- Stable sort (Python `sorted`), as a structural insertion sort. -/
def sortPairs {α : Type} (le : α → α → Bool) (l : List α) : List α :=
  l.foldr (insertPair le) []

/-- One `f"{key}={value}"` line of the data-check string. -/
def fmtPair (kv : Bytes × Bytes) : Bytes := kv.1 ++ 61 :: kv.2

/-- `"\n".join(parts)` / `"&".join(parts)` over byte strings. -/
def joinSep (sep : Nat) : List Bytes → Bytes
  | [] => []
  | [p] => p
  | p :: ps => p ++ sep :: joinSep sep ps

/-- The data-check string of `validate_init_data`: pairs sorted (stably) by
key, formatted `key=value`, joined by single newlines, no trailing newline. -/
def buildCheckString (ps : List (Bytes × Bytes)) : Bytes :=
  joinSep 10 ((sortPairs pairLe ps).map fmtPair)

/-- Python `int(str)`: optional surrounding whitespace, optional sign, then
decimal digits with single underscores allowed between digits. -/
def stripWS (l : Bytes) : Bytes :=
  ((l.dropWhile isSpaceByte).reverse.dropWhile isSpaceByte).reverse

/-- Digit-sequence tail validity (after the first digit): digits, with each
underscore followed by a digit. -/
def digitsOkTail : Bytes → Bool
  | [] => true
  | 95 :: [] => false
  | 95 :: b :: rest => isDigitByte b && digitsOkTail rest
  | b :: rest => isDigitByte b && digitsOkTail rest

/-- Validity of a full (unsigned) digit sequence for Python `int`. -/
def digitsOk : Bytes → Bool
  | [] => false
  | b :: rest => isDigitByte b && digitsOkTail rest

/-- Numeric value of a digit sequence, underscores skipped. -/
def digitsVal (l : Bytes) : Nat :=
  (l.filter (fun b => decide (b ≠ 95))).foldl (fun acc b => acc * 10 + (b - 48)) 0

/-- `int(auth_date_str)` over bytes: `none` models the `ValueError` branch. -/
def parseIntBytes (l : Bytes) : Option Int :=
  match stripWS l with
  | 43 :: rest => if digitsOk rest then some (Int.ofNat (digitsVal rest)) else none
  | 45 :: rest => if digitsOk rest then some (-(Int.ofNat (digitsVal rest))) else none
  | s => if digitsOk s then some (Int.ofNat (digitsVal s)) else none

def hashKeyB : Bytes := strToBytes "hash"
def authDateKeyB : Bytes := strToBytes "auth_date"
def userKeyB : Bytes := strToBytes "user"
def receiverKeyB : Bytes := strToBytes "receiver"
def chatKeyB : Bytes := strToBytes "chat"
def webAppDataB : Bytes := strToBytes "WebAppData"

/-- The original `key=value` pairs of the token, in order (`original_pairs`). -/
def pairsOf (t : Bytes) : List (Bytes × Bytes) := parse_qsl t

/-- `received_hash`: the last value carried under the `hash` key. -/
def receivedHashOf (t : Bytes) : Option Bytes := lastVal (pairsOf t) hashKeyB

/-- `data_pairs_for_check`: every pair except those keyed `hash`, in order. -/
def dataPairsOf (t : Bytes) : List (Bytes × Bytes) :=
  (pairsOf t).filter (fun kv => decide (kv.1 ≠ hashKeyB))

/-- `auth_date_str`: the last `auth_date` value among the non-`hash` pairs. -/
def authDateStrOf (t : Bytes) : Option Bytes := lastVal (dataPairsOf t) authDateKeyB

/-- `data_check_string` as `validate_init_data` computes it for a token. -/
def checkStringOf (t : Bytes) : Bytes := buildCheckString (dataPairsOf t)

/-- `secret_key = HMAC-SHA256(key="WebAppData", message=bot_token)`, with the
HMAC primitive abstracted as `hmacFn` (a Python-stdlib black box). -/
def secretKeyOf (hmacFn : Bytes → Bytes → Bytes) (botToken : Bytes) : Bytes :=
  hmacFn webAppDataB botToken

/-- `calculated_hash` for a token. -/
def calcHashOf (hmacFn : Bytes → Bytes → Bytes) (botToken t : Bytes) : Bytes :=
  hmacFn (secretKeyOf hmacFn botToken) (checkStringOf t)

/-- The age check of `validate_init_data`: a negative difference only logs a
warning; only `time_diff > max_age_seconds` (with nonnegative diff) marks the
data outdated. -/
def isOutdatedOf (now maxAge ts : Int) : Bool :=
  if now - ts < 0 then false else decide (now - ts > maxAge)

/-- Values stored in the returned dictionary: either a (decoded) string or a
structured object successfully produced by `json.loads` (type `J` abstract). -/
inductive PVal (J : Type)
  | str (s : Bytes)
  | jobj (j : J)
deriving DecidableEq

/-- `_parse_value`: URL-decode the value (a second time — the input pairs were
already decoded once by `parse_qsl`), and for the keys `user`, `receiver`,
`chat` additionally JSON-parse it when it is brace-delimited, falling back to
the decoded string when parsing fails. -/
def parse_value {J : Type} (jsonLoads : Bytes → Option J) (k v : Bytes) : PVal J :=
  let dv := unquoteBytes v
  if k = userKeyB ∨ k = receiverKeyB ∨ k = chatKeyB then
    if dv.head? = some 123 ∧ dv.getLast? = some 125 then
      match jsonLoads dv with
      | some j => PVal.jobj j
      | none => PVal.str dv
    else PVal.str dv
  else PVal.str dv

/-- Python `dict` assignment `d[k] = v`: replace in place when the key exists,
otherwise append. -/
def dictInsert {J : Type} (d : List (Bytes × PVal J)) (k : Bytes) (v : PVal J) :
    List (Bytes × PVal J) :=
  if d.any (fun kv => decide (kv.1 = k)) then
    d.map (fun kv => if kv.1 = k then (k, v) else kv)
  else d ++ [(k, v)]

/-- Python `dict` lookup. -/
def dictLookup {J : Type} (d : List (Bytes × PVal J)) (k : Bytes) : Option (PVal J) :=
  (d.find? (fun kv => decide (kv.1 = k))).map Prod.snd

/-- `parsed_data_final`: the dictionary built from the non-`hash` pairs. -/
def buildDict {J : Type} (jsonLoads : Bytes → Option J)
    (ps : List (Bytes × Bytes)) : List (Bytes × PVal J) :=
  ps.foldl (fun d kv => dictInsert d kv.1 (parse_value jsonLoads kv.1 kv.2)) []

/-- The recovery of the `except TelegramAuthError` handler: return the parsed
pairs when any were collected, else `None`. -/
def bestEffortOf {J : Type} (jsonLoads : Bytes → Option J)
    (ps : List (Bytes × Bytes)) : Option (List (Bytes × PVal J)) :=
  if ps.isEmpty then none else some (buildDict jsonLoads ps)

/-- `validate_init_data(init_data, bot_token, max_age_seconds)` from
`app/utils/telegram_auth.py`, as a total function of its inputs plus the
wall clock `now`; `hmacFn` and `jsonLoads` stand for the stdlib primitives
`hmac.new(..., sha256)` (hex digest, as bytes) and `json.loads`. The three
`TelegramAuthError` raises (missing hash, missing auth_date, unparseable
auth_date) are the three early `(false, …)` returns. -/
def validate_init_data {J : Type} (hmacFn : Bytes → Bytes → Bytes)
    (jsonLoads : Bytes → Option J) (now : Int) (init_data bot_token : Bytes)
    (max_age_seconds : Int) : Bool × Option (List (Bytes × PVal J)) :=
  let dataPairs := dataPairsOf init_data
  match receivedHashOf init_data with
  | none => (false, bestEffortOf jsonLoads dataPairs)
  | some rh =>
    match authDateStrOf init_data with
    | none => (false, bestEffortOf jsonLoads dataPairs)
    | some ads =>
      match parseIntBytes ads with
      | none => (false, bestEffortOf jsonLoads dataPairs)
      | some ts =>
        let outdated := isOutdatedOf now max_age_seconds ts
        let hashMatch := calcHashOf hmacFn bot_token init_data = rh
        let parsed := buildDict jsonLoads dataPairs
        if hashMatch then
          if outdated then (false, some parsed) else (true, some parsed)
        else (false, some parsed)

/-- Percent-encode every byte as `%XX` (uppercase hex), used by the round-trip
construction to place field values into a token. -/
def pctEncodeAll (v : Bytes) : Bytes :=
  v.flatMap (fun b => [37, hexDigitChar (b / 16), hexDigitChar (b % 16)])

/-- Modelled from the spec: the round-trip signing construction of §4.1 steps
4–6 and §8 (the signer is the Telegram client, not repository code) — build
the check string from the raw fields, sign it with the HMAC chain, and emit a
token of `&`-joined `key=encoded-value` pairs with the digest attached as the
final `hash` field. -/
def signToken (hmacFn : Bytes → Bytes → Bytes) (botToken : Bytes)
    (fields : List (Bytes × Bytes)) : Bytes :=
  let sig := hmacFn (secretKeyOf hmacFn botToken) (buildCheckString fields)
  joinSep 38 (fields.map (fun kv => kv.1 ++ 61 :: pctEncodeAll kv.2) ++
    [hashKeyB ++ 61 :: sig])

/-- Raw pair parsing with NO URL-decoding — this is what the spec's §4.1
step 1 describes (`URL-decoding neither key nor value at this stage`). -/
def parseQslRaw (s : Bytes) : List (Bytes × Bytes) :=
  (splitSep 38 s).filterMap fun nv =>
    if nv.isEmpty then none
    else
      match splitEq1 nv with
      | some p => some p
      | none => some (nv, [])

/-- Modelled from the spec's words (§4.1 steps 1 and 4): the check string
built from the original, still-URL-encoded field values. Used to compare the
spec's description of the check string against the one the code computes. -/
def encodedCheckStringOf (t : Bytes) : Bytes :=
  buildCheckString ((parseQslRaw t).filter (fun kv => decide (kv.1 ≠ hashKeyB)))

/-- A key is plain when it contains none of the query-string metacharacters
(`%`, `&`, `+`, `=`); all Telegram init-data keys are of this shape. -/
abbrev plainKey (k : Bytes) : Prop := 37 ∉ k ∧ 38 ∉ k ∧ 43 ∉ k ∧ 61 ∉ k

/-! ### Cart reconciliation (`app/api/v1/endpoints/cart.py`, `get_user_cart`) -/

/-- A persisted cart entry (`{product_id, quantity, variation_id?}`), one
element of the `telegram_cart` metadata list. -/
structure CartItem where
  product_id : Int
  quantity : Int
  variation_id : Option Int
deriving DecidableEq, Repr

/-- The fields of a catalog product dict that the reconciliation reads. -/
structure Product where
  id : Int
  stock_status : String
  stock_quantity : Option Int
  name : String
deriving DecidableEq, Repr

/-- A customer metadata value: either a list (possibly a stored cart) or
something that is not a list (`isinstance(value, list)` fails). -/
inductive MetaVal
  | list (items : List CartItem)
  | nonlist
deriving DecidableEq

/-- One entry of the customer's `meta_data`. -/
structure MetaItem where
  key : String
  value : MetaVal
deriving DecidableEq

/-- Whether a metadata value is a Python list. -/
def MetaVal.isList : MetaVal → Bool
  | .list _ => true
  | .nonlist => false

def MetaVal.items : MetaVal → List CartItem
  | .list l => l
  | .nonlist => []

/-- The backend stock filter inside `WooCommerceService.get_products`: only
products whose `stock_status` is `instock` or `onbackorder` are returned. -/
def get_products_filter (raw : List Product) : List Product :=
  raw.filter (fun p => p.stock_status = "instock" ∨ p.stock_status = "onbackorder")

/-- `actual_products_map = {prod['id']: prod for prod in actual_products_data}`
followed by `.get(product_id)`: a later product with the same id overwrites an
earlier one. -/
def productsMapGet (products : List Product) (pid : Int) : Option Product :=
  products.foldl (fun acc p => if p.id = pid then some p else acc) none

/-- `f"Товар с ID {product_id} был удален из корзины, ..."`. -/
def removalMsg (pid : Int) : String :=
  "Товар с ID " ++ toString pid ++
    " был удален из корзины, так как он больше не доступен."

/-- `f"Товар '{name}' был удален из корзины, так как он закончился."`. -/
def soldOutMsg (nm : String) : String :=
  "Товар \x27" ++ nm ++ "\x27 был удален из корзины, так как он закончился."

/-- `f"Количество товара '{name}' уменьшено до {stock_quantity} шт. ..."`. -/
def clampMsg (nm : String) (q : Int) : String :=
  "Количество товара \x27" ++ nm ++ "\x27 уменьшено до " ++ toString q ++
    " шт. (максимально доступно)."

/-- The `for item in saved_cart_items:` synchronisation loop of
`get_user_cart`, returning `(synced_cart_items, sync_messages, is_changed)`:
an entry with no product in the map is dropped with a removal message; an
entry whose product is not `instock` is dropped with a sold-out message; an
entry whose quantity exceeds a non-null `stock_quantity` is kept with the
quantity clamped and an adjustment message; otherwise the entry is kept
unmodified. -/
def sync_cart (products : List Product) : List CartItem → List CartItem × List String × Bool
  | [] => ([], [], false)
  | item :: rest =>
    let r := sync_cart products rest
    match productsMapGet products item.product_id with
    | none => (r.1, removalMsg item.product_id :: r.2.1, true)
    | some p =>
      if p.stock_status ≠ "instock" then (r.1, soldOutMsg p.name :: r.2.1, true)
      else
        match p.stock_quantity with
        | some q =>
          if q < item.quantity then
            ({ item with quantity := q } :: r.1, clampMsg p.name q :: r.2.1, true)
          else (item :: r.1, r.2.1, r.2.2)
        | none => (item :: r.1, r.2.1, r.2.2)

/-- The cart-loading scan of `get_user_cart`: the first `meta_data` entry
whose key is `telegram_cart` AND whose value is a list (non-list values do
not stop the scan); defaults to the empty list. -/
def extractSavedCart (meta : List MetaItem) : List CartItem :=
  match meta.find? (fun mi => mi.key = "telegram_cart" && mi.value.isList) with
  | some mi => mi.value.items
  | none => []

/-- The observable outcome of one `get_user_cart` reconciliation: the synced
items, the user messages, the internal `is_changed` flag (which also decides
whether a background persist is scheduled), and whether the catalog was
queried at all. -/
structure ReconcileResult where
  items : List CartItem
  messages : List String
  changed : Bool
  catalogCalled : Bool
deriving DecidableEq, Repr

/-- `LineItemCreate.model_validate` on one synced item succeeds exactly when
its quantity is positive: `quantity: int = Field(..., gt=0)` in
`app/models/order.py` (`product_id` and the optional `variation_id` are
unconstrained ints, always valid for our `CartItem`). -/
def lineItemCreateValid (it : CartItem) : Bool := decide (0 < it.quantity)

/-- What one `get_user_cart` request produces: either the reconciled cart,
or the pydantic `ValidationError` raised out of the handler (an HTTP 500)
by `LineItemCreate.model_validate` while preparing `cart_to_save`. -/
inductive CartResponse
  | ok (r : ReconcileResult)
  | validationError
deriving DecidableEq, Repr

/-- The reconciliation pipeline of `get_user_cart` from the customer's
metadata onward: load the saved cart (empty ⇒ return immediately, no catalog
call), fetch the referenced products through `get_products` (which applies
the backend stock filter to the raw catalog response), run the
synchronisation loop, and — when `is_changed` is set — synchronously run
`LineItemCreate.model_validate` over the synced items while building
`cart_to_save` (cart.py lines 92-99), which raises `ValidationError` on any
non-positive quantity before the response is returned. -/
def get_user_cart (meta : List MetaItem) (rawCatalog : List Product) : CartResponse :=
  let saved := extractSavedCart meta
  if saved.isEmpty then CartResponse.ok ⟨[], [], false, false⟩
  else
    let actual := get_products_filter rawCatalog
    let r := sync_cart actual saved
    if r.2.2 = true then
      if r.1.all lineItemCreateValid then CartResponse.ok ⟨r.1, r.2.1, r.2.2, true⟩
      else CartResponse.validationError
    else CartResponse.ok ⟨r.1, r.2.1, r.2.2, true⟩

/-- Per-entry reconciliation outcome, following the spec's §4.3 step 4 case
analysis as amended: the entry survives (clamped when a non-null
`stockQuantity` is below its quantity) exactly when a snapshot exists and is
`instock`; `backorder` snapshots do NOT keep the entry. Used to compare the
loop of `sync_cart` against an order-preserving per-entry description. -/
def entryKeepSpec (products : List Product) (it : CartItem) : Option CartItem :=
  match productsMapGet products it.product_id with
  | none => none
  | some p =>
    if p.stock_status = "instock" then
      match p.stock_quantity with
      | some q => if q < it.quantity then some { it with quantity := q } else some it
      | none => some it
    else none

/-- Per-entry messages of the amended §4.3 step 4 case analysis. -/
def entryMsgsSpec (products : List Product) (it : CartItem) : List String :=
  match productsMapGet products it.product_id with
  | none => [removalMsg it.product_id]
  | some p =>
    if p.stock_status = "instock" then
      match p.stock_quantity with
      | some q => if q < it.quantity then [clampMsg p.name q] else []
      | none => []
    else [soldOutMsg p.name]

/-- Whether an entry triggers the `is_changed` flag (dropped or clamped). -/
def entryChangedSpec (products : List Product) (it : CartItem) : Bool :=
  match productsMapGet products it.product_id with
  | none => true
  | some p =>
    if p.stock_status = "instock" then
      match p.stock_quantity with
      | some q => decide (q < it.quantity)
      | none => false
    else true

/-! ### Identity resolution (`app/services/woocommerce.py`,
`find_or_create_customer_by_telegram_data`) -/

/-- The `user` object of the validated init data, as the resolver reads it
(`user_info.get('id')` etc.). -/
structure TgUser where
  id : Option Int
  first_name : Option String
  last_name : Option String
  username : Option String

/-- A customer record of the external directory, with the fields the
resolver touches. -/
structure Customer where
  id : Nat
  email : String
  username : String
  first_name : String
  last_name : String
  meta : List (String × String)
deriving DecidableEq, Repr

/-- A `WooCommerceServiceError`, with the machine-readable `code` of its
structured `details` payload (absent details ⇒ `none`). -/
structure WCError where
  message : String
  code : Option String
deriving DecidableEq, Repr

/-- The data of a customer-creation request (`new_customer_data`). -/
structure NewCustomer where
  email : String
  first_name : String
  last_name : String
  username : String
  billing_first_name : String
  billing_last_name : String
  billing_email : String
  shipping_first_name : String
  shipping_last_name : String
  meta : List (String × String)
deriving DecidableEq, Repr

/-- The directory operations the resolver performs, written state-passing so
that sequential calls observe each other's effects. `getCustomerByEmail`
models `get_customer_by_email` (first match or `None`), `createCustomer`
models `create_customer` (a created record or a raised
`WooCommerceServiceError`), `updateCustomer` models `update_customer`. -/
structure DirClient (σ : Type) where
  getCustomerByEmail : σ → String → Option Customer × σ
  createCustomer : σ → NewCustomer → Except WCError Customer × σ
  updateCustomer : σ → Nat → List (String × String) → Option Customer × σ

/-- `customer_email = f"tg_{tg_user_id}@telegram.user"`. -/
def customerEmail (tgId : Int) : String := "tg_" ++ toString tgId ++ "@telegram.user"

/-- `customer_username = f"tg_user_{tg_user_id}"`. -/
def customerUsername (tgId : Int) : String := "tg_user_" ++ toString tgId

/-- The error codes the resolver treats as a creation race:
`e.details.get('code') in ('registration-error-email-exists',
'registration-error-username-exists')`. -/
def isConflictError (e : WCError) : Bool :=
  match e.code with
  | some c =>
    decide (c = "registration-error-email-exists" ∨
      c = "registration-error-username-exists")
  | none => false

/-- `new_customer_data` as built by the resolver. -/
def newCustomerFor (u : TgUser) (tgId : Int) : NewCustomer :=
  let fn := u.first_name.getD "Telegram User"
  let ln := u.last_name.getD ("#" ++ toString tgId)
  { email := customerEmail tgId
    first_name := fn
    last_name := ln
    username := customerUsername tgId
    billing_first_name := fn
    billing_last_name := ln
    billing_email := customerEmail tgId
    shipping_first_name := fn
    shipping_last_name := ln
    meta := [("_telegram_user_id", toString tgId),
             ("_telegram_username", u.username.getD "")] }

/-- The creation half of the resolver (step 2 onward): attempt the create;
on success with a truthy id return it; on a conflict-coded error re-query by
email once and return the found id when truthy; otherwise `None`. -/
def createFlow {σ : Type} (cl : DirClient σ) (st : σ) (u : TgUser) (tgId : Int) :
    Option Nat × σ :=
  let cr := cl.createCustomer st (newCustomerFor u tgId)
  match cr.1 with
  | Except.ok c => if c.id ≠ 0 then (some c.id, cr.2) else (none, cr.2)
  | Except.error e =>
    if isConflictError e then
      let f2 := cl.getCustomerByEmail cr.2 (customerEmail tgId)
      match f2.1 with
      | some c => if c.id ≠ 0 then (some c.id, f2.2) else (none, f2.2)
      | none => (none, f2.2)
    else (none, cr.2)

/-- `find_or_create_customer_by_telegram_data(user_info)`: reject a missing
or falsy telegram id; look the customer up by the synthetic email; when found
with a truthy id, repair the missing `_telegram_user_id` metadata if needed
and return the id; otherwise run the creation flow. -/
def find_or_create_customer_by_telegram_data {σ : Type} (cl : DirClient σ)
    (st : σ) (u : TgUser) : Option Nat × σ :=
  match u.id with
  | none => (none, st)
  | some tgId =>
    if tgId = 0 then (none, st)
    else
      let f1 := cl.getCustomerByEmail st (customerEmail tgId)
      match f1.1 with
      | some c =>
        if c.id ≠ 0 then
          if c.meta.any (fun m => decide (m.1 = "_telegram_user_id")) then
            (some c.id, f1.2)
          else
            let u2 := cl.updateCustomer f1.2 c.id
              [("_telegram_user_id", toString tgId)]
            (some c.id, u2.2)
        else createFlow cl f1.2 u tgId
      | none => createFlow cl f1.2 u tgId

/-- Modelled from the spec: the in-memory directory state (§6
CustomerDirectoryClient), instrumented with a count of create calls. -/
structure Dir where
  records : List Customer
  nextId : Nat
  createCalls : Nat
deriving DecidableEq, Repr

/-- Upsert of metadata entries by key, the directory's `meta_data` merge. -/
def upsertMeta (old new : List (String × String)) : List (String × String) :=
  new.foldl
    (fun acc kv =>
      if acc.any (fun e => decide (e.1 = kv.1)) then
        acc.map (fun e => if e.1 = kv.1 then kv else e)
      else acc ++ [kv])
    old

/-- Modelled from the spec: an honest CustomerDirectoryClient over `Dir`
(§6) — `findByEmail` returns the first record with the email; `create`
enforces the directory's uniqueness constraints on email and username,
reporting them with the corresponding machine-readable codes, and otherwise
appends a record under a fresh sequential id; `update` merges metadata. -/
def wcDir : DirClient Dir where
  getCustomerByEmail st em :=
    (st.records.find? (fun r => decide (r.email = em)), st)
  createCustomer st nc :=
    if st.records.any (fun r => decide (r.email = nc.email)) then
      (Except.error ⟨"email exists", some "registration-error-email-exists"⟩,
       { st with createCalls := st.createCalls + 1 })
    else if st.records.any (fun r => decide (r.username = nc.username)) then
      (Except.error ⟨"username exists", some "registration-error-username-exists"⟩,
       { st with createCalls := st.createCalls + 1 })
    else
      (Except.ok ⟨st.nextId, nc.email, nc.username, nc.first_name, nc.last_name, nc.meta⟩,
       ⟨st.records ++ [⟨st.nextId, nc.email, nc.username, nc.first_name, nc.last_name, nc.meta⟩],
        st.nextId + 1, st.createCalls + 1⟩)
  updateCustomer st cid meta :=
    (st.records.find? (fun r => decide (r.id = cid)),
     { st with
        records := st.records.map
          (fun r => if r.id = cid then { r with meta := upsertMeta r.meta meta } else r) })

/-- Modelled from the spec: a scripted CustomerDirectoryClient used to drive
the resolver's error paths (§6's structured error payloads), instrumented
with call counts — the n-th `findByEmail` call returns the n-th scripted
answer, `create` returns the scripted outcome. -/
structure ScriptSt where
  finds : List (Option Customer)
  createRes : Except WCError Customer
  findCalls : Nat
  createCalls : Nat

def scriptClient : DirClient ScriptSt where
  getCustomerByEmail st _ :=
    (st.finds.getD st.findCalls none, { st with findCalls := st.findCalls + 1 })
  createCustomer st _ :=
    (st.createRes, { st with createCalls := st.createCalls + 1 })
  updateCustomer st _ _ := (none, st)

/-! ## Theorems: cart reconciliation -/

/-- The synchronisation loop processes each entry independently, in the
stored order: kept entries are `filterMap entryKeepSpec`, the messages are
the per-entry messages concatenated in order, and `is_changed` is set
exactly when some entry is dropped or clamped. -/
theorem sync_cart_eq_spec (products : List Product) (items : List CartItem) :
    sync_cart products items =
      (items.filterMap (entryKeepSpec products),
       (items.map (entryMsgsSpec products)).flatten,
       items.any (entryChangedSpec products)) := by
  induction items with
  | nil => rfl
  | cons it rest ih =>
    simp only [sync_cart, ih, List.filterMap_cons, List.map_cons, List.flatten_cons,
      List.any_cons, entryKeepSpec, entryMsgsSpec, entryChangedSpec]
    cases hm : productsMapGet products it.product_id with
    | none => simp
    | some p =>
      by_cases hs : p.stock_status = "instock"
      · cases hq : p.stock_quantity with
        | none => simp [hs, hq]
        | some q =>
          by_cases hlt : q < it.quantity
          · simp [hs, hq, hlt]
          · simp [hs, hq, hlt]
      · simp [hs]

/-- A kept (possibly clamped) entry is a fixed point of the per-entry
reconciliation: a second pass keeps it unchanged, emits no message, and does
not set the changed flag. -/
theorem entryKeepSpec_stable (products : List Product) {it it2 : CartItem}
    (h : entryKeepSpec products it = some it2) :
    entryKeepSpec products it2 = some it2 ∧ entryMsgsSpec products it2 = [] ∧
      entryChangedSpec products it2 = false := by
  unfold entryKeepSpec at h
  cases hm : productsMapGet products it.product_id with
  | none => simp only [hm] at h; cases h
  | some p =>
    simp only [hm] at h
    by_cases hs : p.stock_status = "instock"
    · rw [if_pos hs] at h
      cases hq : p.stock_quantity with
      | none =>
        simp only [hq] at h
        cases h
        exact ⟨by simp [entryKeepSpec, hm, hs, hq],
               by simp [entryMsgsSpec, hm, hs, hq],
               by simp [entryChangedSpec, hm, hs, hq]⟩
      | some q =>
        simp only [hq] at h
        by_cases hlt : q < it.quantity
        · rw [if_pos hlt] at h
          cases h
          have hm2 : productsMapGet products ({ it with quantity := q } : CartItem).product_id = some p := hm
          exact ⟨by simp [entryKeepSpec, hm2, hs, hq],
                 by simp [entryMsgsSpec, hm2, hs, hq],
                 by simp [entryChangedSpec, hm2, hs, hq]⟩
        · rw [if_neg hlt] at h
          cases h
          exact ⟨by simp [entryKeepSpec, hm, hs, hq, hlt],
                 by simp [entryMsgsSpec, hm, hs, hq, hlt],
                 by simp [entryChangedSpec, hm, hs, hq, hlt]⟩
    · rw [if_neg hs] at h; cases h

/-- `filterMap` leaves a list unchanged when every element maps to itself. -/
theorem filterMap_eq_self_of_some {α : Type} (f : α → Option α) (l : List α)
    (h : ∀ x ∈ l, f x = some x) : l.filterMap f = l := by
  induction l with
  | nil => rfl
  | cons a l ih =>
    rw [List.filterMap_cons, h a (List.mem_cons_self a l),
      ih (fun x hx => h x (List.mem_cons_of_mem a hx))]

/--
C2: corrected cart reconciliation case analysis. For every persisted entry,
in stored order: the entry is dropped (one removal message, changed set)
exactly when no product is found for its `productId` or the found product's
availability is not `instock` — in particular a `backorder` product, although
returned by the catalog fetch, does NOT keep the entry (it is dropped with a
sold-out message); if the product is `instock` and has a non-null
`stockQuantity` smaller than the entry's quantity, the entry is kept with the
quantity clamped (one adjustment message, changed set); otherwise the entry
is kept unmodified. Surviving entries preserve the original relative order
(the result is a `filterMap` of the original list).
-/
theorem cart_reconciliation_case_analysis (products : List Product)
    (items : List CartItem) :
    sync_cart products items =
      (items.filterMap (entryKeepSpec products),
       (items.map (entryMsgsSpec products)).flatten,
       items.any (entryChangedSpec products)) :=
  sync_cart_eq_spec products items

/--
C2 counterexample: the claim as stated (an entry whose snapshot has
`backorder` availability is kept) fails. With the stored cart
`[{productId 1, qty 1}]` and the catalog holding product 1 with
`stock_status = "onbackorder"`, the code drops the entry (with a sold-out
message and the changed flag set) instead of keeping it.
-/
theorem cart_backorder_dropped_cex :
    get_user_cart [⟨"telegram_cart", MetaVal.list [⟨1, 1, none⟩]⟩]
        [⟨1, "onbackorder", none, "P"⟩] =
      CartResponse.ok ⟨[], [soldOutMsg "P"], true, true⟩ ∧
    ([] : List CartItem) ≠ [⟨1, 1, none⟩] := by
  refine ⟨by decide, by decide⟩

/--
C7: empty-cart fast path. When the persisted cart metadata is absent or
empty (`extractSavedCart meta = []`), the reconciliation returns
`{items := [], messages := [], changed := false}` and performs no catalog
lookup, for every catalog state.
-/
theorem empty_cart_fast_path (meta : List MetaItem) (raw : List Product)
    (h : extractSavedCart meta = []) :
    get_user_cart meta raw = CartResponse.ok ⟨[], [], false, false⟩ := by
  simp [get_user_cart, h]

/-- Witness for C7 at the concrete empty metadata. -/
theorem empty_cart_fast_path_witness :
    extractSavedCart [] = [] ∧
      get_user_cart [] [] = CartResponse.ok ⟨[], [], false, false⟩ :=
  ⟨rfl, empty_cart_fast_path [] [] rfl⟩

/--
C8: reconciliation idempotence. Applying the synchronisation loop a second
time to the corrected item list produced by a first application, with the
catalog unchanged, returns the same item list, an empty message list, and
`changed = false`.
-/
theorem cart_reconciliation_idempotent (products : List Product)
    (items : List CartItem) :
    sync_cart products (sync_cart products items).1 =
      ((sync_cart products items).1, [], false) := by
  have h1 : (sync_cart products items).1 = items.filterMap (entryKeepSpec products) := by
    rw [sync_cart_eq_spec]
  have hmem : ∀ x ∈ items.filterMap (entryKeepSpec products),
      entryKeepSpec products x = some x ∧ entryMsgsSpec products x = [] ∧
        entryChangedSpec products x = false := by
    intro x hx
    rcases List.mem_filterMap.mp hx with ⟨a, _, ha⟩
    exact entryKeepSpec_stable products ha
  rw [h1, sync_cart_eq_spec, Prod.mk.injEq, Prod.mk.injEq]
  refine ⟨filterMap_eq_self_of_some _ _ (fun x hx => (hmem x hx).1), ?_, ?_⟩
  · rw [List.flatten_eq_nil_iff]
    intro l hl
    rcases List.mem_map.mp hl with ⟨x, hx, rfl⟩
    exact (hmem x hx).2.1
  · rw [List.any_eq_false]
    intro x hx
    rw [(hmem x hx).2.2]
    simp

/--
C10 (code bug): the claimed scenario — an in-stock product with
`stock_quantity = 0` and an entry with positive quantity — has the
synchronisation loop keep the entry clamped to 0 with the quantity-adjusted
message (never a removal message), exactly as the claim and §4.3 describe;
but because this sets `is_changed`, the endpoint then synchronously runs
`LineItemCreate.model_validate` over the synced items (cart.py line 94),
whose `quantity` field requires `gt=0`, so the 0-quantity item raises
`ValidationError` and the request errors out instead of returning the items
list. Evaluated here at the failing input.
-/
theorem zero_stock_entry_clamped_then_validation_error :
    sync_cart (get_products_filter [⟨1, "instock", some 0, "A"⟩]) [⟨1, 5, none⟩] =
      ([⟨1, 0, none⟩], [clampMsg "A" 0], true) ∧
    lineItemCreateValid ⟨1, 0, none⟩ = false ∧
    get_user_cart [⟨"telegram_cart", MetaVal.list [⟨1, 5, none⟩]⟩]
        [⟨1, "instock", some 0, "A"⟩] = CartResponse.validationError := by
  refine ⟨by decide, by decide, by decide⟩

/-! ## Theorems: identity resolution -/

/--
C4: identity resolution is idempotent. Starting from a directory with no
record under the synthetic email or derived username of a platform user id
(and a nonzero next id), the first `resolve` call creates exactly one record
and returns its id; a second sequential call returns the same id, leaves the
directory state untouched, and issues zero additional create operations.
-/
theorem resolve_idempotent (st : Dir) (u : TgUser) (tgId : Int)
    (hid : u.id = some tgId) (hnz : tgId ≠ 0) (hnext : st.nextId ≠ 0)
    (hfree : ∀ r ∈ st.records,
      r.email ≠ customerEmail tgId ∧ r.username ≠ customerUsername tgId) :
    (find_or_create_customer_by_telegram_data wcDir st u).1 = some st.nextId ∧
    ((find_or_create_customer_by_telegram_data wcDir st u).2).records.length =
      st.records.length + 1 ∧
    ((find_or_create_customer_by_telegram_data wcDir st u).2).createCalls =
      st.createCalls + 1 ∧
    (find_or_create_customer_by_telegram_data wcDir
        ((find_or_create_customer_by_telegram_data wcDir st u).2) u).1 =
      some st.nextId ∧
    (find_or_create_customer_by_telegram_data wcDir
        ((find_or_create_customer_by_telegram_data wcDir st u).2) u).2 =
      (find_or_create_customer_by_telegram_data wcDir st u).2 := by
  have hfind1 : st.records.find? (fun r => decide (r.email = customerEmail tgId)) = none := by
    rw [List.find?_eq_none]
    intro r hr
    simpa using (hfree r hr).1
  have hanyE : st.records.any
      (fun r => decide (r.email = (newCustomerFor u tgId).email)) = false := by
    rw [List.any_eq_false]
    intro r hr
    simpa [newCustomerFor] using (hfree r hr).1
  have hanyU : st.records.any
      (fun r => decide (r.username = (newCustomerFor u tgId).username)) = false := by
    rw [List.any_eq_false]
    intro r hr
    simpa [newCustomerFor] using (hfree r hr).2
  have h1 : find_or_create_customer_by_telegram_data wcDir st u =
      (some st.nextId,
       ⟨st.records ++ [⟨st.nextId, (newCustomerFor u tgId).email,
          (newCustomerFor u tgId).username, (newCustomerFor u tgId).first_name,
          (newCustomerFor u tgId).last_name, (newCustomerFor u tgId).meta⟩],
        st.nextId + 1, st.createCalls + 1⟩) := by
    unfold find_or_create_customer_by_telegram_data createFlow
    simp only [hid]
    rw [if_neg hnz]
    simp only [wcDir, hfind1]
    rw [hanyE, hanyU]
    simp [hnext]
  rw [h1]
  have hfind2 : (st.records ++ [(⟨st.nextId, (newCustomerFor u tgId).email,
      (newCustomerFor u tgId).username, (newCustomerFor u tgId).first_name,
      (newCustomerFor u tgId).last_name, (newCustomerFor u tgId).meta⟩ : Customer)]).find?
        (fun r => decide (r.email = customerEmail tgId)) =
      some ⟨st.nextId, (newCustomerFor u tgId).email, (newCustomerFor u tgId).username,
        (newCustomerFor u tgId).first_name, (newCustomerFor u tgId).last_name,
        (newCustomerFor u tgId).meta⟩ := by
    rw [List.find?_append, hfind1]
    simp [newCustomerFor]
  have h2 : find_or_create_customer_by_telegram_data wcDir
      (⟨st.records ++ [⟨st.nextId, (newCustomerFor u tgId).email,
          (newCustomerFor u tgId).username, (newCustomerFor u tgId).first_name,
          (newCustomerFor u tgId).last_name, (newCustomerFor u tgId).meta⟩],
        st.nextId + 1, st.createCalls + 1⟩ : Dir) u =
      (some st.nextId,
       ⟨st.records ++ [⟨st.nextId, (newCustomerFor u tgId).email,
          (newCustomerFor u tgId).username, (newCustomerFor u tgId).first_name,
          (newCustomerFor u tgId).last_name, (newCustomerFor u tgId).meta⟩],
        st.nextId + 1, st.createCalls + 1⟩) := by
    unfold find_or_create_customer_by_telegram_data
    rw [hid]
    simp only [wcDir, hfind2, if_neg hnz]
    simp [newCustomerFor, hnext]
  rw [h2]
  simp

/-- Witness for C4: a previously-unseen platform user id 7 on the empty
directory. -/
theorem resolve_idempotent_witness :
    (find_or_create_customer_by_telegram_data wcDir ⟨[], 1, 0⟩
        ⟨some 7, none, none, none⟩).1 = some 1 ∧
    ((find_or_create_customer_by_telegram_data wcDir ⟨[], 1, 0⟩
        ⟨some 7, none, none, none⟩).2).records.length = 1 ∧
    ((find_or_create_customer_by_telegram_data wcDir ⟨[], 1, 0⟩
        ⟨some 7, none, none, none⟩).2).createCalls = 1 ∧
    (find_or_create_customer_by_telegram_data wcDir
        ((find_or_create_customer_by_telegram_data wcDir ⟨[], 1, 0⟩
          ⟨some 7, none, none, none⟩).2) ⟨some 7, none, none, none⟩).1 = some 1 ∧
    (find_or_create_customer_by_telegram_data wcDir
        ((find_or_create_customer_by_telegram_data wcDir ⟨[], 1, 0⟩
          ⟨some 7, none, none, none⟩).2) ⟨some 7, none, none, none⟩).2 =
      (find_or_create_customer_by_telegram_data wcDir ⟨[], 1, 0⟩
        ⟨some 7, none, none, none⟩).2 :=
  resolve_idempotent ⟨[], 1, 0⟩ ⟨some 7, none, none, none⟩ 7 rfl
    (by decide) (by decide) (by simp)

/--
C5 counterexample: the two failure modes of `resolve` are not distinct
values. A creation failure with the email-uniqueness conflict code whose
retry still finds nothing (the spec's `Transient`) and a creation failure
with an unrelated error code (the spec's `DirectoryError`) both make
`resolve` return the same `None`.
-/
theorem resolve_failures_indistinct_cex :
    (find_or_create_customer_by_telegram_data scriptClient
        ⟨[none, none], Except.error ⟨"x", some "registration-error-email-exists"⟩, 0, 0⟩
        ⟨some 7, none, none, none⟩).1 = none ∧
    (find_or_create_customer_by_telegram_data scriptClient
        ⟨[none], Except.error ⟨"boom", some "woocommerce_rest_cannot_create"⟩, 0, 0⟩
        ⟨some 7, none, none, none⟩).1 = none ∧
    (find_or_create_customer_by_telegram_data scriptClient
        ⟨[none, none], Except.error ⟨"x", some "registration-error-email-exists"⟩, 0, 0⟩
        ⟨some 7, none, none, none⟩).1 =
      (find_or_create_customer_by_telegram_data scriptClient
        ⟨[none], Except.error ⟨"boom", some "woocommerce_rest_cannot_create"⟩, 0, 0⟩
        ⟨some 7, none, none, none⟩).1 := by
  refine ⟨by decide, by decide, by decide⟩

/--
C5 (amended): creation-race handling of `resolve`. When the create call
fails with a uniqueness-conflict code on email or username, `resolve`
re-queries by email exactly once (two `findByEmail` calls in total) and
returns the found record's id when that re-query succeeds; when the
re-query still finds nothing it returns `None`; a creation error with any
other code returns `None` with no re-query (one `findByEmail` call in
total) — both failures being the same `None` value, not distinct variants.
-/
theorem resolve_conflict_retry (u : TgUser) (tgId : Int) (e eOther : WCError)
    (c : Customer) (hid : u.id = some tgId) (hnz : tgId ≠ 0)
    (hconf : isConflictError e = true) (hcid : c.id ≠ 0)
    (hother : isConflictError eOther = false) :
    find_or_create_customer_by_telegram_data scriptClient
        ⟨[none, some c], Except.error e, 0, 0⟩ u =
      (some c.id, ⟨[none, some c], Except.error e, 2, 1⟩) ∧
    find_or_create_customer_by_telegram_data scriptClient
        ⟨[none, none], Except.error e, 0, 0⟩ u =
      (none, ⟨[none, none], Except.error e, 2, 1⟩) ∧
    find_or_create_customer_by_telegram_data scriptClient
        ⟨[none], Except.error eOther, 0, 0⟩ u =
      (none, ⟨[none], Except.error eOther, 1, 1⟩) := by
  unfold find_or_create_customer_by_telegram_data
  rw [hid]
  refine ⟨?_, ?_, ?_⟩
  · simp only [scriptClient, createFlow, if_neg hnz]
    simp [hconf, hcid]
  · simp only [scriptClient, createFlow, if_neg hnz]
    simp [hconf]
  · simp only [scriptClient, createFlow, if_neg hnz]
    simp [hother]

/-- Witness for C5 at concrete scripted directory answers. -/
theorem resolve_conflict_retry_witness :
    isConflictError ⟨"x", some "registration-error-username-exists"⟩ = true ∧
    isConflictError ⟨"boom", some "woocommerce_rest_cannot_create"⟩ = false ∧
    find_or_create_customer_by_telegram_data scriptClient
        ⟨[none, some ⟨5, "e", "u", "f", "l", []⟩],
         Except.error ⟨"x", some "registration-error-username-exists"⟩, 0, 0⟩
        ⟨some 7, none, none, none⟩ =
      (some 5, ⟨[none, some ⟨5, "e", "u", "f", "l", []⟩],
        Except.error ⟨"x", some "registration-error-username-exists"⟩, 2, 1⟩) ∧
    find_or_create_customer_by_telegram_data scriptClient
        ⟨[none, none], Except.error ⟨"x", some "registration-error-username-exists"⟩, 0, 0⟩
        ⟨some 7, none, none, none⟩ =
      (none, ⟨[none, none],
        Except.error ⟨"x", some "registration-error-username-exists"⟩, 2, 1⟩) ∧
    find_or_create_customer_by_telegram_data scriptClient
        ⟨[none], Except.error ⟨"boom", some "woocommerce_rest_cannot_create"⟩, 0, 0⟩
        ⟨some 7, none, none, none⟩ =
      (none, ⟨[none], Except.error ⟨"boom", some "woocommerce_rest_cannot_create"⟩, 1, 1⟩) := by
  have h := resolve_conflict_retry ⟨some 7, none, none, none⟩ 7
    ⟨"x", some "registration-error-username-exists"⟩
    ⟨"boom", some "woocommerce_rest_cannot_create"⟩
    ⟨5, "e", "u", "f", "l", []⟩ rfl (by decide) (by decide) (by decide) (by decide)
  exact ⟨by decide, by decide, h.1, h.2.1, h.2.2⟩

/-! ## Theorems: signed-session verification — parsing infrastructure -/

theorem splitSep_ne_nil (sep : Nat) (l : Bytes) : splitSep sep l ≠ [] := by
  cases l with
  | nil => simp [splitSep]
  | cons b rest =>
    simp only [splitSep]
    cases h : splitSep sep rest with
    | nil => simp
    | cons hd tl =>
      by_cases hb : b = sep
      · simp [hb]
      · simp [hb]

theorem splitSep_no_sep {sep : Nat} {p : Bytes} (h : sep ∉ p) :
    splitSep sep p = [p] := by
  induction p with
  | nil => rfl
  | cons b rest ih =>
    have hb : b ≠ sep := fun hc => h (hc ▸ List.mem_cons_self b rest)
    have hr := ih (fun hm => h (List.mem_cons_of_mem b hm))
    simp only [splitSep, hr]
    simp [hb]

theorem splitSep_append_sep {sep : Nat} {p l : Bytes} (h : sep ∉ p) :
    splitSep sep (p ++ sep :: l) = p :: splitSep sep l := by
  induction p with
  | nil =>
    simp only [List.nil_append, splitSep]
    cases hs : splitSep sep l with
    | nil => exact absurd hs (splitSep_ne_nil sep l)
    | cons hd tl => simp
  | cons b rest ih =>
    have hb : b ≠ sep := fun hc => h (hc ▸ List.mem_cons_self b rest)
    have hr := ih (fun hm => h (List.mem_cons_of_mem b hm))
    simp only [List.cons_append, splitSep]
    rw [show rest.append (sep :: l) = rest ++ sep :: l from rfl, hr]
    simp [hb]

theorem splitSep_joinSep {sep : Nat} :
    ∀ {parts : List Bytes}, parts ≠ [] → (∀ p ∈ parts, sep ∉ p) →
      splitSep sep (joinSep sep parts) = parts
  | [], hne, _ => absurd rfl hne
  | [p], _, h => by
    simp only [joinSep]
    exact splitSep_no_sep (h p (List.mem_singleton.mpr rfl))
  | p :: q :: ps, _, h => by
    have h1 : sep ∉ p := h p (List.mem_cons_self p (q :: ps))
    have h2 : ∀ r ∈ q :: ps, sep ∉ r := fun r hr => h r (List.mem_cons_of_mem p hr)
    simp only [joinSep]
    rw [splitSep_append_sep h1]
    rw [splitSep_joinSep (by simp) h2]

theorem splitEq1_append {k v : Bytes} (h : (61 : Nat) ∉ k) :
    splitEq1 (k ++ 61 :: v) = some (k, v) := by
  induction k with
  | nil => simp [splitEq1]
  | cons b rest ih =>
    have hb : b ≠ 61 := fun hc => h (hc ▸ List.mem_cons_self b rest)
    have hr := ih (fun hm => h (List.mem_cons_of_mem b hm))
    simp only [List.cons_append, splitEq1]
    rw [show rest.append (61 :: v) = rest ++ 61 :: v from rfl, hr]
    simp [hb]

theorem replacePlus_eq_self {s : Bytes} (h : (43 : Nat) ∉ s) :
    replacePlus s = s := by
  induction s with
  | nil => rfl
  | cons b rest ih =>
    have hb : b ≠ 43 := fun hc => h (hc ▸ List.mem_cons_self b rest)
    have hr := ih (fun hm => h (List.mem_cons_of_mem b hm))
    simp [replacePlus] at hr ⊢
    exact ⟨fun hc => absurd hc hb, hr⟩

theorem unquoteAux_eq_self (fuel : Nat) :
    ∀ {s : Bytes}, (37 : Nat) ∉ s → unquoteAux fuel s = s := by
  induction fuel with
  | zero =>
    intro s _
    cases s <;> rfl
  | succ fuel ih =>
    intro s h
    cases s with
    | nil => rfl
    | cons b rest =>
      have hb : b ≠ 37 := fun hc => h (hc ▸ List.mem_cons_self b rest)
      have hr := ih (fun hm => h (List.mem_cons_of_mem b hm))
      simp only [unquoteAux]
      rw [if_neg hb, hr]

theorem unquoteBytes_eq_self {s : Bytes} (h : (37 : Nat) ∉ s) :
    unquoteBytes s = s := unquoteAux_eq_self s.length h

theorem decodeComp_eq_self {s : Bytes} (h37 : (37 : Nat) ∉ s)
    (h43 : (43 : Nat) ∉ s) : decodeComp s = s := by
  unfold decodeComp
  rw [replacePlus_eq_self h43, unquoteBytes_eq_self h37]

theorem isHexDigitByte_hexDigitChar {n : Nat} (h : n < 16) :
    isHexDigitByte (hexDigitChar n) = true := by
  unfold isHexDigitByte hexDigitChar
  split <;> simp <;> omega

theorem hexDigitVal_hexDigitChar {n : Nat} (h : n < 16) :
    hexDigitVal (hexDigitChar n) = n := by
  unfold hexDigitVal hexDigitChar
  split <;> (repeat' split) <;> omega

theorem hexDigitChar_not_special (n : Nat) :
    hexDigitChar n ≠ 37 ∧ hexDigitChar n ≠ 38 ∧ hexDigitChar n ≠ 43 ∧
      hexDigitChar n ≠ 61 := by
  unfold hexDigitChar
  split <;> omega

theorem mem_pctEncodeAll_not_special {v : Bytes} {b : Nat}
    (hb : b ∈ pctEncodeAll v) :
    b ≠ 38 ∧ b ≠ 43 ∧ b ≠ 61 := by
  unfold pctEncodeAll at hb
  rcases List.mem_flatMap.mp hb with ⟨x, _, hx⟩
  simp only [List.mem_cons, List.not_mem_nil, or_false] at hx
  rcases hx with rfl | rfl | rfl
  · omega
  · have h := hexDigitChar_not_special (x / 16)
    exact ⟨h.2.1, h.2.2.1, h.2.2.2⟩
  · have h := hexDigitChar_not_special (x % 16)
    exact ⟨h.2.1, h.2.2.1, h.2.2.2⟩

theorem unquoteAux_pctEncodeAll {v : Bytes} (h : ∀ b ∈ v, b < 256) :
    ∀ fuel, (pctEncodeAll v).length ≤ fuel →
      unquoteAux fuel (pctEncodeAll v) = v := by
  induction v with
  | nil => intro fuel _; cases fuel <;> rfl
  | cons b rest ih =>
    intro fuel hfuel
    have hb : b < 256 := h b (List.mem_cons_self b rest)
    have hr := ih (fun x hx => h x (List.mem_cons_of_mem b hx))
    have hdiv : b / 16 < 16 := by omega
    have hmod : b % 16 < 16 := by omega
    have hstep : pctEncodeAll (b :: rest) = 37 :: hexDigitChar (b / 16) ::
        hexDigitChar (b % 16) :: pctEncodeAll rest := by
      simp [pctEncodeAll]
    rw [hstep] at hfuel ⊢
    simp only [List.length_cons] at hfuel
    cases fuel with
    | zero => omega
    | succ fuel =>
      simp only [unquoteAux, if_pos rfl]
      rw [isHexDigitByte_hexDigitChar hdiv, isHexDigitByte_hexDigitChar hmod]
      simp only [Bool.and_self, if_pos rfl]
      rw [hr fuel (by omega)]
      unfold hexPairVal
      rw [hexDigitVal_hexDigitChar hdiv, hexDigitVal_hexDigitChar hmod]
      have hb2 : b / 16 * 16 + b % 16 = b := by omega
      rw [hb2]
      simp

theorem unquoteBytes_pctEncodeAll {v : Bytes} (h : ∀ b ∈ v, b < 256) :
    unquoteBytes (pctEncodeAll v) = v :=
  unquoteAux_pctEncodeAll h (pctEncodeAll v).length (Nat.le_refl _)

theorem decodeComp_pctEncodeAll {v : Bytes} (h : ∀ b ∈ v, b < 256) :
    decodeComp (pctEncodeAll v) = v := by
  unfold decodeComp
  rw [replacePlus_eq_self (fun hm => (mem_pctEncodeAll_not_special hm).2.1 rfl),
    unquoteBytes_pctEncodeAll h]

theorem lastVal_append_single (l : List (Bytes × Bytes)) (k v : Bytes) :
    lastVal (l ++ [(k, v)]) k = some v := by
  induction l with
  | nil => simp [lastVal]
  | cons kv l ih =>
    simp only [List.cons_append, lastVal]
    rw [show l.append [(k, v)] = l ++ [(k, v)] from rfl, ih]

theorem lastVal_mem {ps : List (Bytes × Bytes)} {k v : Bytes}
    (h : lastVal ps k = some v) : (k, v) ∈ ps := by
  induction ps with
  | nil => cases h
  | cons kv ps ih =>
    simp only [lastVal] at h
    cases hl : lastVal ps k with
    | some w =>
      rw [hl] at h
      cases h
      exact List.mem_cons_of_mem kv (ih hl)
    | none =>
      rw [hl] at h
      by_cases hk : kv.1 = k
      · rw [if_pos hk] at h
        cases h
        rw [← hk]
        exact List.mem_cons_self _ _
      · rw [if_neg hk] at h
        cases h

theorem find?_map_upd {J : Type} (k : Bytes) (v : PVal J) {k2 : Bytes}
    (h : k2 ≠ k) (l : List (Bytes × PVal J)) :
    (l.map (fun kv => if kv.1 = k then (k, v) else kv)).find?
        (fun kv => decide (kv.1 = k2)) =
      l.find? (fun kv => decide (kv.1 = k2)) := by
  induction l with
  | nil => rfl
  | cons a l ih =>
    by_cases ha : a.1 = k
    · have ha2 : ¬ a.1 = k2 := fun hc => h (hc ▸ ha.symm ▸ rfl)
      have hkk2 : ¬ ((k, v) : Bytes × PVal J).1 = k2 := fun hc => h hc.symm
      have e1 : (decide (((k, v) : Bytes × PVal J).1 = k2)) = false := by
        simp [hkk2]
      have e2 : (decide (a.1 = k2)) = false := by simp [ha2]
      simp only [List.map_cons, List.find?_cons, if_pos ha]
      rw [e1, e2, ih]
    · simp only [List.map_cons, List.find?_cons, if_neg ha]
      cases hd : decide (a.1 = k2) with
      | true => rfl
      | false => rw [ih]

theorem find?_map_upd_self {J : Type} (k : Bytes) (v : PVal J)
    (l : List (Bytes × PVal J))
    (h : l.any (fun kv => decide (kv.1 = k)) = true) :
    (l.map (fun kv => if kv.1 = k then (k, v) else kv)).find?
        (fun kv => decide (kv.1 = k)) = some (k, v) := by
  induction l with
  | nil => cases h
  | cons a l ih =>
    by_cases ha : a.1 = k
    · simp only [List.map_cons, List.find?_cons, if_pos ha]
      simp
    · simp only [List.any_cons] at h
      have hl : l.any (fun kv => decide (kv.1 = k)) = true := by
        rcases Bool.or_eq_true_iff.mp h with h1 | h1
        · exact absurd (of_decide_eq_true h1) ha
        · exact h1
      have e1 : (decide (a.1 = k)) = false := by simp [ha]
      simp only [List.map_cons, List.find?_cons, if_neg ha]
      rw [e1, ih hl]

theorem dictLookup_dictInsert {J : Type} (d : List (Bytes × PVal J))
    (k k2 : Bytes) (v : PVal J) :
    dictLookup (dictInsert d k v) k2 =
      if k2 = k then some v else dictLookup d k2 := by
  unfold dictInsert dictLookup
  by_cases hany : d.any (fun kv => decide (kv.1 = k)) = true
  · rw [if_pos hany]
    by_cases hk : k2 = k
    · rw [if_pos hk, hk, find?_map_upd_self k v d hany]
      rfl
    · rw [if_neg hk, find?_map_upd k v hk d]
  · rw [if_neg hany]
    rw [List.find?_append]
    by_cases hk : k2 = k
    · subst hk
      have hnone : d.find? (fun kv => decide (kv.1 = k2)) = none := by
        rw [List.find?_eq_none]
        intro x hx hdec
        exact hany (List.any_eq_true.mpr ⟨x, hx, hdec⟩)
      rw [if_pos rfl, hnone]
      simp
    · have hkk2 : ¬ k = k2 := fun hc => hk hc.symm
      have h2 : ([((k, v) : Bytes × PVal J)].find? (fun kv => decide (kv.1 = k2))) = none := by
        simp [hkk2]
      rw [if_neg hk, h2]
      simp

theorem dictLookup_buildDict_aux {J : Type} (jsonLoads : Bytes → Option J)
    (k : Bytes) :
    ∀ (ps : List (Bytes × Bytes)) (d : List (Bytes × PVal J)),
      dictLookup (ps.foldl
          (fun d kv => dictInsert d kv.1 (parse_value jsonLoads kv.1 kv.2)) d) k =
        match lastVal ps k with
        | some v => some (parse_value jsonLoads k v)
        | none => dictLookup d k
  | [], d => by simp [lastVal]
  | kv :: ps, d => by
    simp only [List.foldl_cons, lastVal]
    rw [dictLookup_buildDict_aux jsonLoads k ps]
    cases hl : lastVal ps k with
    | some w => rfl
    | none =>
      simp only
      by_cases hk : kv.1 = k
      · rw [if_pos hk, dictLookup_dictInsert, if_pos hk.symm, hk]
      · rw [if_neg hk, dictLookup_dictInsert, if_neg (fun hc => hk hc.symm)]

theorem dictLookup_buildDict {J : Type} (jsonLoads : Bytes → Option J)
    (ps : List (Bytes × Bytes)) (k : Bytes) :
    dictLookup (buildDict jsonLoads ps) k =
      match lastVal ps k with
      | some v => some (parse_value jsonLoads k v)
      | none => none :=
  dictLookup_buildDict_aux jsonLoads k ps []

/-- One encoded field of a signed token. -/
theorem qslPair_encoded_pair {k v : Bytes} (hk : plainKey k)
    (hv : ∀ b ∈ v, b < 256) :
    qslPair (k ++ 61 :: pctEncodeAll v) = some (k, v) := by
  have hne : (k ++ 61 :: pctEncodeAll v).isEmpty = false := by
    cases k <;> simp [List.isEmpty]
  unfold qslPair
  rw [hne]
  simp only [Bool.false_eq_true, if_false]
  rw [splitEq1_append hk.2.2.2]
  simp only
  rw [decodeComp_eq_self hk.1 hk.2.2.1, decodeComp_pctEncodeAll hv]

/-- Parsing a signed token recovers the original fields followed by the
`hash` pair. -/
theorem parse_qsl_signed_token (fields : List (Bytes × Bytes)) (sig : Bytes)
    (hkeys : ∀ kv ∈ fields, plainKey kv.1)
    (hvals : ∀ kv ∈ fields, ∀ b ∈ kv.2, b < 256)
    (hsig : ∀ b ∈ sig, b ≠ 37 ∧ b ≠ 43 ∧ b ≠ 38) :
    parse_qsl (joinSep 38 (fields.map (fun kv => kv.1 ++ 61 :: pctEncodeAll kv.2) ++
        [hashKeyB ++ 61 :: sig])) = fields ++ [(hashKeyB, sig)] := by
  have hsplit : splitSep 38 (joinSep 38
      (fields.map (fun kv => kv.1 ++ 61 :: pctEncodeAll kv.2) ++
        [hashKeyB ++ 61 :: sig])) =
      fields.map (fun kv => kv.1 ++ 61 :: pctEncodeAll kv.2) ++
        [hashKeyB ++ 61 :: sig] := by
    apply splitSep_joinSep
    · simp
    · intro p hp
      rcases List.mem_append.mp hp with hp | hp
      · rcases List.mem_map.mp hp with ⟨kv, hkv, rfl⟩
        intro hmem
        rcases List.mem_append.mp hmem with hmem | hmem
        · exact (hkeys kv hkv).2.1 hmem
        · rcases List.mem_cons.mp hmem with h61 | hmem
          · omega
          · exact (mem_pctEncodeAll_not_special hmem).1 rfl
      · rw [List.mem_singleton.mp hp]
        intro hmem
        rcases List.mem_append.mp hmem with hmem | hmem
        · revert hmem
          decide
        · rcases List.mem_cons.mp hmem with h61 | hmem
          · omega
          · exact (hsig 38 hmem).2.2 rfl
  unfold parse_qsl
  rw [hsplit, List.filterMap_append]
  have hfields : ∀ fs : List (Bytes × Bytes), (∀ kv ∈ fs, plainKey kv.1) →
      (∀ kv ∈ fs, ∀ b ∈ kv.2, b < 256) →
      (fs.map (fun kv => kv.1 ++ 61 :: pctEncodeAll kv.2)).filterMap qslPair = fs := by
    intro fs
    induction fs with
    | nil => intro _ _; rfl
    | cons kv fs ih =>
      intro hks hvs
      simp only [List.map_cons, List.filterMap_cons]
      rw [qslPair_encoded_pair (hks kv (List.mem_cons_self kv fs))
        (hvs kv (List.mem_cons_self kv fs))]
      rw [ih (fun x hx => hks x (List.mem_cons_of_mem kv hx))
        (fun x hx => hvs x (List.mem_cons_of_mem kv hx))]
  rw [hfields fields hkeys hvals]
  have hhash : ([hashKeyB ++ 61 :: sig].filterMap qslPair) = [(hashKeyB, sig)] := by
    simp only [List.filterMap_cons]
    have hne : (hashKeyB ++ 61 :: sig).isEmpty = false := by
      simp [hashKeyB, strToBytes, List.isEmpty]
    unfold qslPair
    rw [hne]
    simp only [Bool.false_eq_true, if_false]
    rw [splitEq1_append (by decide)]
    simp only
    rw [decodeComp_eq_self (by decide) (by decide)]
    rw [decodeComp_eq_self (fun hm => (hsig 37 hm).1 rfl)
      (fun hm => (hsig 43 hm).2.1 rfl)]
    rfl
  rw [hhash]

theorem bytesLe_total (a b : Bytes) : (bytesLe a b || bytesLe b a) = true := by
  induction a generalizing b with
  | nil => simp [bytesLe]
  | cons x xs ih =>
    cases b with
    | nil => simp [bytesLe]
    | cons y ys =>
      simp only [bytesLe]
      by_cases hxy : x < y
      · simp [hxy]
      · by_cases hyx : y < x
        · simp [hyx, hxy]
        · have hx : ¬ y < x := hyx
          simp [hxy, hyx, ih ys]

theorem bytesLe_trans (a b c : Bytes) (hab : bytesLe a b = true)
    (hbc : bytesLe b c = true) : bytesLe a c = true := by
  induction a generalizing b c with
  | nil => simp [bytesLe]
  | cons x xs ih =>
    cases b with
    | nil => simp [bytesLe] at hab
    | cons y ys =>
      cases c with
      | nil => simp [bytesLe] at hbc
      | cons z zs =>
        simp only [bytesLe] at hab hbc ⊢
        by_cases hxy : x < y
        · by_cases hyz : y < z
          · rw [if_pos (by omega)]
          · rw [if_neg hyz] at hbc
            by_cases hzy : z < y
            · simp [hzy] at hbc
            · rw [if_pos (by omega)]
        · rw [if_neg hxy] at hab
          by_cases hyx : y < x
          · simp [hyx] at hab
          · rw [if_neg hyx] at hab
            by_cases hyz : y < z
            · rw [if_pos (by omega)]
            · rw [if_neg hyz] at hbc
              by_cases hzy : z < y
              · simp [hzy] at hbc
              · rw [if_neg hzy] at hbc
                rw [if_neg (by omega), if_neg (by omega)]
                exact ih ys zs hab hbc

theorem pairLe_total (a b : Bytes × Bytes) : (pairLe a b || pairLe b a) = true :=
  bytesLe_total a.1 b.1

theorem pairLe_trans (a b c : Bytes × Bytes) (hab : pairLe a b = true)
    (hbc : pairLe b c = true) : pairLe a c = true :=
  bytesLe_trans a.1 b.1 c.1 hab hbc

theorem insertPair_perm {α : Type} (le : α → α → Bool) (x : α) :
    ∀ l : List α, (insertPair le x l).Perm (x :: l)
  | [] => List.Perm.refl _
  | y :: ys => by
    simp only [insertPair]
    by_cases hxy : le x y = true
    · rw [if_pos hxy]
    · rw [if_neg hxy]
      exact (List.Perm.cons y (insertPair_perm le x ys)).trans
        (List.Perm.swap x y ys)

theorem sortPairs_perm {α : Type} (le : α → α → Bool) (l : List α) :
    (sortPairs le l).Perm l := by
  induction l with
  | nil => exact List.Perm.refl _
  | cons x xs ih =>
    exact (insertPair_perm le x (sortPairs le xs)).trans (List.Perm.cons x ih)

theorem insertPair_pairwise {α : Type} (le : α → α → Bool)
    (htot : ∀ a b, (le a b || le b a) = true)
    (htr : ∀ a b c, le a b = true → le b c = true → le a c = true) (x : α) :
    ∀ {l : List α}, l.Pairwise (fun a b => le a b = true) →
      (insertPair le x l).Pairwise (fun a b => le a b = true)
  | [], _ => by simp [insertPair]
  | y :: ys, h => by
    rcases List.pairwise_cons.mp h with ⟨hy, hys⟩
    simp only [insertPair]
    by_cases hxy : le x y = true
    · rw [if_pos hxy]
      refine List.pairwise_cons.mpr ⟨?_, h⟩
      intro z hz
      rcases List.mem_cons.mp hz with rfl | hz
      · exact hxy
      · exact htr x y z hxy (hy z hz)
    · rw [if_neg hxy]
      refine List.pairwise_cons.mpr
        ⟨?_, insertPair_pairwise le htot htr x hys⟩
      intro z hz
      have hzmem := (insertPair_perm le x ys).mem_iff.mp hz
      rcases List.mem_cons.mp hzmem with rfl | hz2
      · rcases Bool.or_eq_true_iff.mp (htot z y) with h1 | h1
        · exact absurd h1 hxy
        · exact h1
      · exact hy z hz2

theorem sortPairs_pairwise {α : Type} (le : α → α → Bool)
    (htot : ∀ a b, (le a b || le b a) = true)
    (htr : ∀ a b c, le a b = true → le b c = true → le a c = true)
    (l : List α) :
    (sortPairs le l).Pairwise (fun a b => le a b = true) := by
  induction l with
  | nil => simp [sortPairs]
  | cons x xs ih => exact insertPair_pairwise le htot htr x ih

/-! ## Theorems: signed-session verification — the claims -/

/-- Inversion of a successful validation: `is_valid = true` forces a present
hash, a parsing auth_date, a matching signature, and non-stale data. -/
theorem validate_success_inv {J : Type} (hmacFn : Bytes → Bytes → Bytes)
    (jsonLoads : Bytes → Option J) (now : Int) (t bt : Bytes) (maxAge : Int)
    (h : (validate_init_data hmacFn jsonLoads now t bt maxAge).1 = true) :
    ∃ rh ads ts, receivedHashOf t = some rh ∧ authDateStrOf t = some ads ∧
      parseIntBytes ads = some ts ∧ rh = calcHashOf hmacFn bt t ∧
      isOutdatedOf now maxAge ts = false := by
  unfold validate_init_data at h
  cases hrh : receivedHashOf t with
  | none => simp [hrh] at h
  | some rh =>
    simp only [hrh] at h
    cases hads : authDateStrOf t with
    | none => simp [hads] at h
    | some ads =>
      simp only [hads] at h
      cases hts : parseIntBytes ads with
      | none => simp [hts] at h
      | some ts =>
        simp only [hts] at h
        by_cases hm : calcHashOf hmacFn bt t = rh
        · rw [if_pos hm] at h
          by_cases ho : isOutdatedOf now maxAge ts = true
          · rw [if_pos ho] at h; simp at h
          · exact ⟨rh, ads, ts, rfl, rfl, hts, hm.symm,
              Bool.eq_false_iff.mpr ho⟩
        · rw [if_neg hm] at h; simp at h

/--
C9: `validate_init_data` is a total function of its inputs — every input
string yields a `(Bool, Option dict)` pair (the Python exception paths are
the early `(false, …)` returns of the embedding) — and every failure path
returns `false` as the first component: the first component is `true` only
when the token carries a `hash` pair, its `auth_date` parses as an integer,
the received hash equals the computed one, and the data is not outdated.
-/
theorem validate_never_raises_failure_false {J : Type}
    (hmacFn : Bytes → Bytes → Bytes) (jsonLoads : Bytes → Option J)
    (now : Int) (t bt : Bytes) (maxAge : Int)
    (h : (validate_init_data hmacFn jsonLoads now t bt maxAge).1 = true) :
    ∃ rh ads ts, receivedHashOf t = some rh ∧ authDateStrOf t = some ads ∧
      parseIntBytes ads = some ts ∧ rh = calcHashOf hmacFn bt t ∧
      isOutdatedOf now maxAge ts = false :=
  validate_success_inv hmacFn jsonLoads now t bt maxAge h

/-- Witness for C9: a concretely accepted token; by contraposition every
token failing one of the checks (missing hash, missing or unparseable
auth_date, mismatch, staleness) gets `false`. -/
theorem validate_never_raises_failure_false_witness :
    (validate_init_data (fun _ _ => strToBytes "q")
        (fun _ => (none : Option Unit)) 1 (strToBytes "auth_date=1&hash=q")
        [] 5).1 = true ∧
    ∃ rh ads ts, receivedHashOf (strToBytes "auth_date=1&hash=q") = some rh ∧
      authDateStrOf (strToBytes "auth_date=1&hash=q") = some ads ∧
      parseIntBytes ads = some ts ∧
      rh = calcHashOf (fun _ _ => strToBytes "q") [] (strToBytes "auth_date=1&hash=q") ∧
      isOutdatedOf 1 5 ts = false :=
  ⟨by decide,
   validate_never_raises_failure_false (fun _ _ => strToBytes "q")
     (fun _ => (none : Option Unit)) 1 (strToBytes "auth_date=1&hash=q") [] 5
     (by decide)⟩

/--
C3 counterexample: the check string accepted by `validate_init_data` is NOT
built from the still-URL-encoded field values. With the HMAC primitive
instantiated as the function returning its message, the token
`auth_date=1&a=%41&hash=a=A\nauth_date=1` validates successfully — its
accepted hash is the check string with `%41` DECODED to `A` — while the
spec's still-encoded check string differs and its hash would not be
accepted.
-/
theorem check_string_encoded_cex :
    (validate_init_data (fun _ m => m) (fun _ => (none : Option Unit)) 1
        (strToBytes "auth_date=1&a=%41&hash=a=A\nauth_date=1") [] 10).1 = true ∧
    receivedHashOf (strToBytes "auth_date=1&a=%41&hash=a=A\nauth_date=1") =
      some (checkStringOf (strToBytes "auth_date=1&a=%41&hash=a=A\nauth_date=1")) ∧
    checkStringOf (strToBytes "auth_date=1&a=%41&hash=a=A\nauth_date=1") ≠
      encodedCheckStringOf (strToBytes "auth_date=1&a=%41&hash=a=A\nauth_date=1") ∧
    receivedHashOf (strToBytes "auth_date=1&a=%41&hash=a=A\nauth_date=1") ≠
      some (encodedCheckStringOf (strToBytes "auth_date=1&a=%41&hash=a=A\nauth_date=1")) := by
  refine ⟨by decide, by decide, by decide, by decide⟩

/--
C3 (amended): check-string construction of `validate_init_data`. The hash it
accepts equals `hmac(hmac("WebAppData", botToken), checkString)` where the
check string is formed from the token's `key=value` pairs with the `hash`
pairs removed, using the URL-DECODED field values (parse_qsl decodes names
and values; `+` becomes a space), sorted stably by key in byte-wise
lexicographic order, joined as `key=value` lines by single newlines with no
trailing newline.
-/
theorem check_string_decoded_sorted {J : Type} (hmacFn : Bytes → Bytes → Bytes)
    (jsonLoads : Bytes → Option J) (now : Int) (t bt : Bytes) (maxAge : Int)
    (h : (validate_init_data hmacFn jsonLoads now t bt maxAge).1 = true) :
    ∃ rh sorted, receivedHashOf t = some rh ∧
      sorted.Perm (dataPairsOf t) ∧
      List.Pairwise (fun a b => pairLe a b = true) sorted ∧
      rh = hmacFn (hmacFn webAppDataB bt) (joinSep 10 (sorted.map fmtPair)) := by
  rcases validate_success_inv hmacFn jsonLoads now t bt maxAge h with
    ⟨rh, ads, ts, hrh, _, _, hcalc, _⟩
  refine ⟨rh, sortPairs pairLe (dataPairsOf t), hrh, ?_, ?_, ?_⟩
  · exact sortPairs_perm pairLe (dataPairsOf t)
  · exact sortPairs_pairwise pairLe pairLe_total pairLe_trans (dataPairsOf t)
  · exact hcalc

/-- Witness for C3 at a concretely accepted token. -/
theorem check_string_decoded_sorted_witness :
    (validate_init_data (fun _ _ => strToBytes "zz")
        (fun _ => (none : Option Unit)) 9 (strToBytes "b=2&auth_date=9&hash=zz")
        [] 60).1 = true ∧
    ∃ rh sorted,
      receivedHashOf (strToBytes "b=2&auth_date=9&hash=zz") = some rh ∧
      sorted.Perm (dataPairsOf (strToBytes "b=2&auth_date=9&hash=zz")) ∧
      List.Pairwise (fun a b => pairLe a b = true) sorted ∧
      rh = (fun _ _ => strToBytes "zz")
          ((fun _ _ => strToBytes "zz") webAppDataB ([] : Bytes))
          (joinSep 10 (sorted.map fmtPair)) :=
  ⟨by decide,
   check_string_decoded_sorted (fun _ _ => strToBytes "zz")
     (fun _ => (none : Option Unit)) 9 (strToBytes "b=2&auth_date=9&hash=zz")
     [] 60 (by decide)⟩

/--
C6 counterexample: staleness is NOT reported distinctly from signature
mismatch. With the HMAC primitive returning the constant `a`, the token
`auth_date=5&hash=a` at `now = 100`, `maxAge = 10` has a VALID signature
over STALE data, while `auth_date=5&hash=b` has a signature mismatch — and
`validate_init_data` returns the very same value `(false, parsed)` for both.
-/
theorem stale_vs_mismatch_cex :
    validate_init_data (fun _ _ => strToBytes "a") (fun _ => (none : Option Unit))
        100 (strToBytes "auth_date=5&hash=a") [] 10 =
      validate_init_data (fun _ _ => strToBytes "a") (fun _ => (none : Option Unit))
        100 (strToBytes "auth_date=5&hash=b") [] 10 ∧
    (validate_init_data (fun _ _ => strToBytes "a") (fun _ => (none : Option Unit))
        100 (strToBytes "auth_date=5&hash=a") [] 10).1 = false ∧
    receivedHashOf (strToBytes "auth_date=5&hash=a") =
      some (calcHashOf (fun _ _ => strToBytes "a") [] (strToBytes "auth_date=5&hash=a")) ∧
    authDateStrOf (strToBytes "auth_date=5&hash=a") = some (strToBytes "5") ∧
    parseIntBytes (strToBytes "5") = some 5 ∧
    isOutdatedOf 100 10 5 = true ∧
    receivedHashOf (strToBytes "auth_date=5&hash=b") = some (strToBytes "b") ∧
    strToBytes "b" ≠
      calcHashOf (fun _ _ => strToBytes "a") [] (strToBytes "auth_date=5&hash=b") := by
  refine ⟨by decide, by decide, by decide, by decide, by decide, by decide,
    by decide, by decide⟩

/--
C6 (amended): a token whose signature verifies but whose auth_date is older
than `now - maxAge` is rejected — `validate_init_data` returns `false` with
the parsed data — but this outcome is NOT distinguishable in the returned
value from a signature mismatch: a second token carrying the same non-hash
pairs but a wrong hash produces the identical result. The stale/mismatch
distinction exists only in logging.
-/
theorem stale_result_equals_mismatch_result {J : Type}
    (hmacFn : Bytes → Bytes → Bytes) (jsonLoads : Bytes → Option J)
    (now : Int) (bt t t2 : Bytes) (maxAge : Int) (ads h2v : Bytes) (ts : Int)
    (h1 : receivedHashOf t = some (calcHashOf hmacFn bt t))
    (hads : authDateStrOf t = some ads) (hts : parseIntBytes ads = some ts)
    (hout : isOutdatedOf now maxAge ts = true)
    (hdp : dataPairsOf t2 = dataPairsOf t)
    (h2 : receivedHashOf t2 = some h2v)
    (hne : h2v ≠ calcHashOf hmacFn bt t2) :
    validate_init_data hmacFn jsonLoads now t bt maxAge =
      (false, some (buildDict jsonLoads (dataPairsOf t))) ∧
    validate_init_data hmacFn jsonLoads now t2 bt maxAge =
      validate_init_data hmacFn jsonLoads now t bt maxAge := by
  have e1 : validate_init_data hmacFn jsonLoads now t bt maxAge =
      (false, some (buildDict jsonLoads (dataPairsOf t))) := by
    unfold validate_init_data
    simp only [h1, hads, hts]
    rw [if_pos trivial, if_pos hout]
  have hads2 : authDateStrOf t2 = some ads := by
    unfold authDateStrOf
    rw [hdp]
    exact hads
  have e2 : validate_init_data hmacFn jsonLoads now t2 bt maxAge =
      (false, some (buildDict jsonLoads (dataPairsOf t2))) := by
    unfold validate_init_data
    simp only [h2, hads2, hts]
    rw [if_neg (fun hc => hne hc.symm)]
  exact ⟨e1, by rw [e2, e1, hdp]⟩

/-- Witness for C6 at the concrete stale-valid and mismatching tokens. -/
theorem stale_result_equals_mismatch_result_witness :
    validate_init_data (fun _ _ => strToBytes "a") (fun _ => (none : Option Unit))
        100 (strToBytes "auth_date=5&hash=a") [] 10 =
      (false, some (buildDict (fun _ => (none : Option Unit))
        (dataPairsOf (strToBytes "auth_date=5&hash=a")))) ∧
    validate_init_data (fun _ _ => strToBytes "a") (fun _ => (none : Option Unit))
        100 (strToBytes "auth_date=5&hash=b") [] 10 =
      validate_init_data (fun _ _ => strToBytes "a") (fun _ => (none : Option Unit))
        100 (strToBytes "auth_date=5&hash=a") [] 10 :=
  stale_result_equals_mismatch_result (fun _ _ => strToBytes "a")
    (fun _ => (none : Option Unit)) 100 [] (strToBytes "auth_date=5&hash=a")
    (strToBytes "auth_date=5&hash=b") 10 (strToBytes "5") (strToBytes "b") 5
    (by decide) (by decide) (by decide) (by decide) (by decide) (by decide)
    (by decide)

/--
C1: round-trip of the signing protocol. For every valid `(fields, botToken)`
pair — plain keys none of which is `hash`, UTF-8 byte values, a fresh
parseable `auth_date`, and a `user` field whose JSON text carries a numeric
`id` — building the check string per §4.1 (sort the `key=value` pairs by
key, join with newlines), signing it with the abstracted HMAC chain
(`hmacFn (hmacFn "WebAppData" botToken) checkString`, hex digests being free
of `%`/`+`/`&`), attaching the digest as the `hash` field, and calling
`validate_init_data` on the resulting token with the same `botToken` and a
fresh clock yields `(true, parsed)` with a parsed `user` object whose `id`
equals the original `user.id`.
-/
theorem signed_token_roundtrip {J : Type} (hmacFn : Bytes → Bytes → Bytes)
    (jsonLoads : Bytes → Option J) (idOf : J → Option Int) (botToken : Bytes)
    (fields : List (Bytes × Bytes)) (now maxAge ts i : Int) (ads uv : Bytes)
    (uobj : J)
    (hkeys : ∀ kv ∈ fields, plainKey kv.1 ∧ kv.1 ≠ hashKeyB)
    (hvals : ∀ kv ∈ fields, ∀ b ∈ kv.2, b < 256)
    (hhmac : ∀ x y : Bytes, ∀ b ∈ hmacFn x y, b ≠ 37 ∧ b ≠ 43 ∧ b ≠ 38)
    (hauth : lastVal fields authDateKeyB = some ads)
    (hts : parseIntBytes ads = some ts)
    (hfresh : now - ts ≤ maxAge)
    (huser : lastVal fields userKeyB = some uv)
    (hupct : (37 : Nat) ∉ uv)
    (hbr : uv.head? = some 123 ∧ uv.getLast? = some 125)
    (hjson : jsonLoads uv = some uobj)
    (hid : idOf uobj = some i) :
    ∃ d, validate_init_data hmacFn jsonLoads now
        (signToken hmacFn botToken fields) botToken maxAge = (true, some d) ∧
      ∃ j, dictLookup d userKeyB = some (PVal.jobj j) ∧ idOf j = some i := by
  have hparse : pairsOf (signToken hmacFn botToken fields) =
      fields ++ [(hashKeyB,
        hmacFn (secretKeyOf hmacFn botToken) (buildCheckString fields))] := by
    unfold pairsOf signToken
    exact parse_qsl_signed_token fields _ (fun kv hkv => (hkeys kv hkv).1) hvals
      (fun b hb => hhmac _ _ b hb)
  have hdata : dataPairsOf (signToken hmacFn botToken fields) = fields := by
    unfold dataPairsOf
    rw [hparse, List.filter_append]
    have h1 : fields.filter (fun kv => decide (kv.1 ≠ hashKeyB)) = fields :=
      List.filter_eq_self.mpr
        (fun kv hkv => by simp [(hkeys kv hkv).2])
    have h2 : ([(hashKeyB,
        hmacFn (secretKeyOf hmacFn botToken) (buildCheckString fields))].filter
          (fun kv => decide (kv.1 ≠ hashKeyB))) = [] := by
      simp
    rw [h1, h2, List.append_nil]
  have hrh : receivedHashOf (signToken hmacFn botToken fields) =
      some (hmacFn (secretKeyOf hmacFn botToken) (buildCheckString fields)) := by
    unfold receivedHashOf
    rw [hparse]
    exact lastVal_append_single fields hashKeyB _
  have hads2 : authDateStrOf (signToken hmacFn botToken fields) = some ads := by
    unfold authDateStrOf
    rw [hdata]
    exact hauth
  have hcalc : calcHashOf hmacFn botToken (signToken hmacFn botToken fields) =
      hmacFn (secretKeyOf hmacFn botToken) (buildCheckString fields) := by
    unfold calcHashOf checkStringOf
    rw [hdata]
  have hout : isOutdatedOf now maxAge ts = false := by
    unfold isOutdatedOf
    by_cases hneg : now - ts < 0
    · rw [if_pos hneg]
    · rw [if_neg hneg]
      simp only [decide_eq_false_iff_not]
      omega
  refine ⟨buildDict jsonLoads fields, ?_, ?_⟩
  · unfold validate_init_data
    simp only [hrh, hads2, hts, hdata]
    rw [if_pos hcalc, hout]
    simp
  · have hlook : dictLookup (buildDict jsonLoads fields) userKeyB =
        some (parse_value jsonLoads userKeyB uv) := by
      rw [dictLookup_buildDict, huser]
    refine ⟨uobj, ?_, hid⟩
    rw [hlook]
    unfold parse_value
    simp only [unquoteBytes_eq_self hupct]
    rw [if_pos (Or.inl trivial), if_pos hbr]
    simp only [hjson]

/-- Witness for C1: the concrete field list
`auth_date=1, user={"id":7}` signed with a constant hex-like digest. -/
theorem signed_token_roundtrip_witness :
    ∃ d, validate_init_data (fun _ _ => strToBytes "ab")
        (fun bs => if bs = strToBytes "\x7b\x22id\x22:7\x7d" then some (7 : Int) else none)
        1
        (signToken (fun _ _ => strToBytes "ab") (strToBytes "bt")
          [(strToBytes "auth_date", strToBytes "1"),
           (strToBytes "user", strToBytes "\x7b\x22id\x22:7\x7d")])
        (strToBytes "bt") 0 = (true, some d) ∧
      ∃ j, dictLookup d userKeyB = some (PVal.jobj j) ∧ some j = some (7 : Int) :=
  signed_token_roundtrip (fun _ _ => strToBytes "ab")
    (fun bs => if bs = strToBytes "\x7b\x22id\x22:7\x7d" then some (7 : Int) else none)
    some (strToBytes "bt")
    [(strToBytes "auth_date", strToBytes "1"),
     (strToBytes "user", strToBytes "\x7b\x22id\x22:7\x7d")]
    1 0 1 7 (strToBytes "1") (strToBytes "\x7b\x22id\x22:7\x7d") 7
    (by decide) (by decide)
    (by
      intro x y b hb
      simp [strToBytes] at hb
      rcases hb with rfl | rfl
      · exact ⟨by decide, by decide, by decide⟩
      · exact ⟨by decide, by decide, by decide⟩)
    (by decide) (by decide) (by decide) (by decide) (by decide)
    (by decide) (by decide) (by decide)

end TgBackend
